import Mathlib

/-!
Verification of the dynamic-ui repository: a shallow embedding of the
SSE event-streaming protocol (backend Stream Session, client Stream
Reader / Accumulator) and the recursive A2UI UI Tree Interpreter,
with theorems settling the frozen claims about the code.

Sources embedded:
- src/backend/src/server.ts (the /api/agui and /api/a2ui handlers)
- src/apps/backend/src/server.ts + handlers (same protocol, split form)
- src/apps/agui/src/components/ChatInterface.tsx (AGUI client reader)
- src/apps/a2ui/src/components/ChatInterface.tsx (A2UI client reader)
- src/a2ui/src/components/A2UIRenderer.tsx (UI tree interpreter)

JavaScript runtime values are modelled by a JSON value type; the
platform function JSON.parse is modelled by an executable fuel-based
parser over the JSON grammar (strings with the common escapes, integer
numerals, arrays, objects); JS truthiness, strict equality and string
coercion are modelled explicitly.  CSS class strings computed by the
purely presentational helpers are elided (visual styling is out of
scope for the design).  Wall-clock timestamps attached to chat entries
are likewise elided.
-/

namespace DynamicUI

/-- JSON values, the data exchanged on the wire and interpreted by the
renderer.  Objects are ordered field lists, as produced by parsing.
A missing property (JS undefined) is modelled by Option none at use
sites. -/
inductive Json where
  | null : Json
  | bool : Bool → Json
  | num : Int → Json
  | str : String → Json
  | arr : List Json → Json
  | obj : List (String × Json) → Json
deriving Inhabited

/-- Last-binding-wins field lookup, matching the object JSON.parse
builds (later duplicate keys overwrite earlier ones). -/
def lookupField : List (String × Json) → String → Option Json
  | [], _ => none
  | (k1, v) :: rest, k =>
    match lookupField rest k with
    | some w => some w
    | none => if k1 = k then some v else none

/-- Property access `v.k` as JS performs it on a non-null, non-undefined
value: objects yield the field (or undefined, modelled as none); all
other values yield undefined for the string keys used here. -/
def jsMember : Json → String → Option Json
  | .obj fields, k => lookupField fields k
  | _, _ => none

/-- JS truthiness of a value. -/
def jsTruthy : Json → Bool
  | .null => false
  | .bool b => b
  | .num n => n != 0
  | .str s => s != ""
  | .arr _ => true
  | .obj _ => true

/-- Truthiness of a possibly-undefined value (undefined is falsy). -/
def jsTruthyOpt : Option Json → Bool
  | none => false
  | some v => jsTruthy v

/-- Whether `typeof v` is the string "object" (true for objects, arrays
and null). -/
def isObjectType : Json → Bool
  | .obj _ => true
  | .arr _ => true
  | .null => true
  | _ => false

/-- JS strict equality `===` restricted to the values compared in this
protocol: primitives compare by value; two object or array references
obtained from separate parses are never identical, so they compare
unequal here. -/
def jsStrictEq : Json → Json → Bool
  | .null, .null => true
  | .bool a, .bool b => a == b
  | .num a, .num b => a == b
  | .str a, .str b => a == b
  | _, _ => false

/-- Strict equality lifted to possibly-undefined values
(undefined === undefined holds). -/
def jsStrictEqOpt : Option Json → Option Json → Bool
  | none, none => true
  | some a, some b => jsStrictEq a b
  | _, _ => false

/-! ### String coercion

JS coerces values to strings when they are concatenated onto a string
or interpolated into a template literal.  Arrays join their coerced
elements with commas; plain objects render as "[object Object]". -/

mutual

/-- JS ToString coercion of a value. -/
def jsToString : Json → String
  | .null => "null"
  | .bool b => if b then "true" else "false"
  | .num n => toString n
  | .str s => s
  | .arr xs => jsToStringList xs
  | .obj _ => "[object Object]"

/-- Comma-joined coercion of array elements (Array.prototype.toString). -/
def jsToStringList : List Json → String
  | [] => ""
  | [x] => jsToString x
  | x :: y :: rest => jsToString x ++ "," ++ jsToStringList (y :: rest)

end

/-- Coercion of a possibly-undefined value (undefined interpolates as
the text "undefined"). -/
def jsToStringOpt : Option Json → String
  | none => "undefined"
  | some v => jsToString v

/-! ### JSON.parse

An executable model of the platform JSON parser used by both the
server (tool-call arguments) and the client (SSE frame payloads).
It accepts the JSON grammar with integer numerals and the common
single-character string escapes; anything else — in particular any
truncated document — fails, as JSON.parse throws.  Recursion is fueled
by the input length so every function is structurally recursive and
evaluates inside the kernel. -/

/-- Skip JSON whitespace. -/
def skipWs : List Char → List Char
  | [] => []
  | c :: rest =>
    if c = ' ' || c = '\n' || c = '\t' || c = '\r' then skipWs rest
    else c :: rest

/-- Consume a run of decimal digits onto an accumulator. -/
def parseDigits (acc : Nat) : List Char → Nat × List Char
  | [] => (acc, [])
  | c :: rest =>
    if c.isDigit then parseDigits (acc * 10 + (c.toNat - 48)) rest
    else (acc, c :: rest)

/-- Translate a string escape character (the quote, backslash and
slash map to themselves, the letters n t r b f to their control
characters); unsupported escapes fail. -/
def escChar (e : Char) : Option Char :=
  if e = '"' || e = '\\' || e = '/' then some e
  else if e = 'n' then some (Char.ofNat 10)
  else if e = 't' then some (Char.ofNat 9)
  else if e = 'r' then some (Char.ofNat 13)
  else if e = 'b' then some (Char.ofNat 8)
  else if e = 'f' then some (Char.ofNat 12)
  else none

/-- Parse the body of a JSON string after the opening quote. -/
def parseStringBody (acc : List Char) : List Char → Option (String × List Char)
  | [] => none
  | '"' :: rest => some (String.mk acc.reverse, rest)
  | '\\' :: e :: rest =>
    match escChar e with
    | some c => parseStringBody (c :: acc) rest
    | none => none
  | ['\\'] => none
  | c :: rest => parseStringBody (c :: acc) rest

mutual

/-- Parse one JSON value, returning it with the unconsumed remainder. -/
def parseValue : Nat → List Char → Option (Json × List Char)
  | 0, _ => none
  | fuel + 1, cs =>
    match skipWs cs with
    | 'n' :: 'u' :: 'l' :: 'l' :: rest => some (.null, rest)
    | 't' :: 'r' :: 'u' :: 'e' :: rest => some (.bool true, rest)
    | 'f' :: 'a' :: 'l' :: 's' :: 'e' :: rest => some (.bool false, rest)
    | '"' :: rest =>
      match parseStringBody [] rest with
      | some (s, r) => some (.str s, r)
      | none => none
    | '[' :: rest =>
      match skipWs rest with
      | ']' :: r => some (.arr [], r)
      | cs2 =>
        match parseElems fuel cs2 with
        | some (xs, r) => some (.arr xs, r)
        | none => none
    | '{' :: rest =>
      match skipWs rest with
      | '}' :: r => some (.obj [], r)
      | cs2 =>
        match parseMembers fuel cs2 with
        | some (fs, r) => some (.obj fs, r)
        | none => none
    | '-' :: c :: rest =>
      if c.isDigit then
        match parseDigits (c.toNat - 48) rest with
        | (n, r) => some (.num (-(n : Int)), r)
      else none
    | c :: rest =>
      if c.isDigit then
        match parseDigits (c.toNat - 48) rest with
        | (n, r) => some (.num (n : Int), r)
      else none
    | [] => none

/-- Parse the comma-separated elements of a non-empty array. -/
def parseElems : Nat → List Char → Option (List Json × List Char)
  | 0, _ => none
  | fuel + 1, cs =>
    match parseValue fuel cs with
    | none => none
    | some (v, r) =>
      match skipWs r with
      | ',' :: r2 =>
        match parseElems fuel r2 with
        | some (xs, r3) => some (v :: xs, r3)
        | none => none
      | ']' :: r2 => some ([v], r2)
      | _ => none

/-- Parse the comma-separated members of a non-empty object. -/
def parseMembers : Nat → List Char → Option (List (String × Json) × List Char)
  | 0, _ => none
  | fuel + 1, cs =>
    match skipWs cs with
    | '"' :: rest =>
      match parseStringBody [] rest with
      | none => none
      | some (k, r) =>
        match skipWs r with
        | ':' :: r2 =>
          match parseValue fuel r2 with
          | none => none
          | some (v, r3) =>
            match skipWs r3 with
            | ',' :: r4 =>
              match parseMembers fuel r4 with
              | some (fs, r5) => some ((k, v) :: fs, r5)
              | none => none
            | '}' :: r4 => some ([(k, v)], r4)
            | _ => none
        | _ => none
    | _ => none

end

/-- JSON.parse on a character list: one complete value, possibly
surrounded by whitespace; anything else fails. -/
def parseJsonList (cs : List Char) : Option Json :=
  match parseValue (cs.length + 1) cs with
  | some (v, rest) => if skipWs rest = [] then some v else none
  | none => none

/-- JSON.parse on a string. -/
def parseJsonStr (s : String) : Option Json :=
  parseJsonList s.data

/-! ### UI Tree Interpreter (A2UIRenderer.tsx, UIComponent)

The recursive renderer is modelled as a function from a JSON
specification to an Option of a rendered view tree; a none result is a
thrown exception (React has no error boundary here, so one throw
crashes the whole tree).  Rendered nodes record the structure and the
prop values the code reads; the CSS class strings computed from them
by the style helpers are presentational and elided. -/

/-- The rendered view tree.  Each constructor mirrors one arm of the
switch in UIComponent; nullNode is the null returned for a non-object
spec, invalidPlaceholder the error box for a missing or non-string
component tag, and unknownPlaceholder the fallback box that shows the
tag and the raw offending node. -/
inductive RenderedNode where
  | nullNode : RenderedNode
  | invalidPlaceholder : RenderedNode
  | unknownPlaceholder : String → Json → RenderedNode
  | container : Option Json → List RenderedNode → RenderedNode
  | card : List RenderedNode → RenderedNode
  | grid : Option Json → List RenderedNode → RenderedNode
  | heading : Json → Option Json → RenderedNode
  | textNode : Option Json → RenderedNode
  | button : Option Json → RenderedNode
  | image : Option Json → Json → RenderedNode
  | list : List Json → RenderedNode
  | badge : Option Json → Option Json → RenderedNode
  | divider : RenderedNode
  | spacer : Json → RenderedNode
  | metric : Option Json → Option Json → RenderedNode
  | progress : Option Json → Option Json → Option Json → RenderedNode
  | link : Option Json → Option Json → Option Json → RenderedNode
  | alert : Option Json → Option Json → Option Json → RenderedNode
  | codeBlock : Option Json → RenderedNode
  | table : Option (List Json) → List (List Json) → RenderedNode
deriving Inhabited

/-- The tags the switch in UIComponent knows. -/
def knownComponents : List String :=
  ["container", "card", "heading", "text", "button", "image", "list",
   "grid", "badge", "divider", "spacer", "metric", "progress", "link",
   "alert", "code", "table"]

/-- The component tag of a node when it passes the guard
`!component || typeof component !== 'string'`: present, a string, and
truthy (non-empty). -/
def componentTag (spec : Json) : Option String :=
  match jsMember spec "component" with
  | some (.str s) => if s != "" then some s else none
  | _ => none

/-- The filter `(child) => child && child.component` applied before
recursing into children. -/
def childOk (c : Json) : Bool :=
  jsTruthy c && jsTruthyOpt (jsMember c "component")

/-- The `children = []` destructuring default followed by `.filter`:
undefined becomes the empty list, an array is used as is, and any
other value throws when `.filter` is called on it. -/
def childrenOf (spec : Json) : Option (List Json) :=
  match jsMember spec "children" with
  | none => some []
  | some (.arr xs) => some xs
  | some _ => none

/-- JS `a || b` on a possibly-undefined left operand. -/
def jsOr (v : Option Json) (d : Json) : Json :=
  match v with
  | some x => if jsTruthy x then x else d
  | none => d

/-- Reading `props.k`: throws (none) when props is null, otherwise
yields the field or undefined. -/
def propRead : Json → String → Option (Option Json)
  | .null, _ => none
  | .obj fs, k => some (lookupField fs k)
  | _, _ => some none

/-- The `props = {}` destructuring default. -/
def propsOf (spec : Json) : Json :=
  (jsMember spec "props").getD (.obj [])

/-- `(v || []).map`: a falsy or undefined value becomes the empty
list, an array is used as is, and any other truthy value throws. -/
def orElseArray : Option Json → Option (List Json)
  | none => some []
  | some v =>
    if jsTruthy v then
      match v with
      | .arr xs => some xs
      | _ => none
    else some []

/-- `v && v.map(...)`: a falsy or undefined value renders nothing,
an array is rendered, and any other truthy value throws. -/
def truthyArray : Option Json → Option (Option (List Json))
  | none => some none
  | some v =>
    if jsTruthy v then
      match v with
      | .arr xs => some (some xs)
      | _ => none
    else some none

/-- The table body: `(props.rows || []).map((row) => row.map(...))`;
each row must itself be an array or the inner `.map` throws. -/
def rowsOf (v : Option Json) : Option (List (List Json)) := do
  let rows ← orElseArray v
  rows.mapM (fun r =>
    match r with
    | .arr cells => some cells
    | _ => none)

theorem one_le_sizeOf_list {α : Type} [SizeOf α] (l : List α) :
    1 ≤ sizeOf l := by
  cases l <;> simp_arith

theorem lookupField_sizeOf (fs : List (String × Json)) (k : String)
    (v : Json) (h : lookupField fs k = some v) : sizeOf v < sizeOf fs := by
  induction fs with
  | nil => simp [lookupField] at h
  | cons p rest ih =>
    obtain ⟨k1, v1⟩ := p
    simp only [lookupField] at h
    cases hr : lookupField rest k with
    | some w =>
      rw [hr] at h
      injection h with h2
      subst h2
      have hlt := ih hr
      simp only [List.cons.sizeOf_spec, Prod.mk.sizeOf_spec]
      omega
    | none =>
      rw [hr] at h
      by_cases hk : k1 = k
      · simp only [hk, if_pos rfl] at h
        injection h with h2
        subst h2
        simp only [List.cons.sizeOf_spec, Prod.mk.sizeOf_spec]
        omega
      · simp [hk] at h

theorem childrenOf_sizeOf (spec : Json) (xs : List Json)
    (hg : (jsTruthy spec && isObjectType spec) = true)
    (h : childrenOf spec = some xs) : sizeOf xs < sizeOf spec := by
  cases spec with
  | null => simp [jsTruthy] at hg
  | bool b => simp [isObjectType] at hg
  | num n => simp [isObjectType] at hg
  | str s => simp [isObjectType] at hg
  | arr ys =>
    simp only [childrenOf, jsMember] at h
    cases h
    have := one_le_sizeOf_list ys
    simp
    omega
  | obj fs =>
    simp only [childrenOf, jsMember] at h
    cases hl : lookupField fs "children" with
    | none =>
      rw [hl] at h
      cases h
      have := one_le_sizeOf_list fs
      simp
      omega
    | some v =>
      rw [hl] at h
      have hv := lookupField_sizeOf fs "children" v hl
      cases v <;> simp at h
      cases h
      simp at hv ⊢
      omega

theorem sizeOf_filter_le (p : Json → Bool) (l : List Json) :
    sizeOf (l.filter p) ≤ sizeOf l := by
  induction l with
  | nil => simp
  | cons x rest ih =>
    by_cases hx : p x
    · simp [List.filter, hx]
      omega
    · simp only [List.filter, hx]
      simp
      omega

mutual

/-- The recursive UIComponent renderer.  First the guard
`!spec || typeof spec !== 'object'` (render null), then the component
tag guard (invalid placeholder), then the switch over the known tags
with the fallback arm for unknown ones. -/
def render (spec : Json) : Option RenderedNode :=
  if hg : (jsTruthy spec && isObjectType spec) = true then
    match componentTag spec with
    | none => some .invalidPlaceholder
    | some c =>
      let props := propsOf spec
      match c with
      | "container" =>
        match hc : childrenOf spec with
        | none => none
        | some xs =>
          match renderList (xs.filter childOk) with
          | none => none
          | some rs => some (.container (jsMember spec "layout") rs)
      | "card" =>
        match hc : childrenOf spec with
        | none => none
        | some xs =>
          match renderList (xs.filter childOk) with
          | none => none
          | some rs => some (.card rs)
      | "grid" =>
        match hc : childrenOf spec with
        | none => none
        | some xs => do
          let cols ← propRead props "columns"
          match renderList (xs.filter childOk) with
          | none => none
          | some rs => some (.grid cols rs)
      | "heading" => do
        let lvl ← propRead props "level"
        let txt ← propRead props "text"
        some (.heading (jsOr lvl (.num 2)) txt)
      | "text" => do
        let content ← propRead props "content"
        some (.textNode content)
      | "button" => do
        let label ← propRead props "label"
        some (.button label)
      | "image" => do
        let src ← propRead props "src"
        let alt ← propRead props "alt"
        some (.image src (jsOr alt (.str "")))
      | "list" => do
        let items ← propRead props "items"
        let xs ← orElseArray items
        some (.list xs)
      | "badge" => do
        let color ← propRead props "color"
        let txt ← propRead props "text"
        some (.badge color txt)
      | "divider" => some .divider
      | "spacer" => do
        let h ← propRead props "height"
        some (.spacer (jsOr h (.num 16)))
      | "metric" => do
        let v ← propRead props "value"
        let label ← propRead props "label"
        some (.metric v label)
      | "progress" => do
        let label ← propRead props "label"
        let v ← propRead props "value"
        let color ← propRead props "color"
        some (.progress v label color)
      | "link" => do
        let url ← propRead props "url"
        let newTab ← propRead props "newTab"
        let txt ← propRead props "text"
        some (.link url txt newTab)
      | "alert" => do
        let ty ← propRead props "type"
        let title ← propRead props "title"
        let msg ← propRead props "message"
        some (.alert ty title msg)
      | "code" => do
        let content ← propRead props "content"
        some (.codeBlock content)
      | "table" => do
        let hs ← propRead props "headers"
        let rows ← propRead props "rows"
        let hsArr ← truthyArray hs
        let rws ← rowsOf rows
        some (.table hsArr rws)
      | _ => some (.unknownPlaceholder c spec)
  else some .nullNode
termination_by sizeOf spec
decreasing_by
  · have h1 := sizeOf_filter_le childOk xs
    have h2 := childrenOf_sizeOf spec xs hg hc
    omega
  · have h1 := sizeOf_filter_le childOk xs
    have h2 := childrenOf_sizeOf spec xs hg hc
    omega
  · have h1 := sizeOf_filter_le childOk xs
    have h2 := childrenOf_sizeOf spec xs hg hc
    omega

/-- Rendering a list of children in order; any child throwing
propagates (no error boundary). -/
def renderList (l : List Json) : Option (List RenderedNode) :=
  match l with
  | [] => some []
  | c :: rest =>
    match render c with
    | none => none
    | some r =>
      match renderList rest with
      | none => none
      | some rs => some (r :: rs)
termination_by sizeOf l
decreasing_by
  all_goals (simp only [List.cons.sizeOf_spec]; omega)

end

mutual

/-- Depth of a rendered tree: 1 for a leaf or placeholder, one more
than the deepest child for the three container-like nodes. -/
def rdepth : RenderedNode → Nat
  | .container _ cs => 1 + rdepthList cs
  | .card cs => 1 + rdepthList cs
  | .grid _ cs => 1 + rdepthList cs
  | _ => 1

/-- Depth of the deepest node in a list of rendered children. -/
def rdepthList : List RenderedNode → Nat
  | [] => 0
  | c :: rest => max (rdepth c) (rdepthList rest)

end

/-- A specification chain nested n containers deep, ending in a text
leaf: the adversarially deep input of the depth-cap property. -/
def chainSpec : Nat → Json
  | 0 => .obj [("component", .str "text"), ("props", .obj [("content", .str "bottom")])]
  | n + 1 => .obj [("component", .str "container"), ("children", .arr [chainSpec n])]

/-- The tree UIComponent produces for chainSpec n: every one of the
n + 1 nodes rendered, none replaced by a truncation placeholder. -/
def chainRendered : Nat → RenderedNode
  | 0 => .textNode (some (.str "bottom"))
  | n + 1 => .container none [chainRendered n]

/-! ### Stream Session (server)

The two endpoint handlers of src/backend/src/server.ts (the split
handlers of src/apps/backend/src behave identically).  One handler
invocation is modelled as a pure function of the injected outcome of
the single fallible step — the provider call, an Except value — plus
the identifiers the handler draws from uuidv4, supplied as arguments.
The result is the ordered list of events written with res.write and a
flag recording that res.end() was called. -/

/-- The discriminated event union written to the SSE stream. -/
inductive AGUIEvent where
  | runStarted : String → String → AGUIEvent
  | runFinished : String → String → AGUIEvent
  | runError : (message : String) → (code : String) → AGUIEvent
  | textMessageStart : (messageId : String) → (role : String) → AGUIEvent
  | textMessageContent : (messageId : String) → (delta : String) → AGUIEvent
  | textMessageEnd : (messageId : String) → AGUIEvent
  | toolCallStart : (toolCallId : String) → (toolCallName : String) →
      (parentMessageId : String) → AGUIEvent
  | toolCallArgs : (toolCallId : String) → (delta : String) → AGUIEvent
  | toolCallEnd : (toolCallId : String) → AGUIEvent
  | uiSpec : (specId : String) → (specification : Json) →
      (parentMessageId : String) → AGUIEvent
deriving Inhabited

def AGUIEvent.isRunError : AGUIEvent → Bool
  | .runError _ _ => true
  | _ => false

def AGUIEvent.isRunFinished : AGUIEvent → Bool
  | .runFinished _ _ => true
  | _ => false

def AGUIEvent.isTextStart : AGUIEvent → Bool
  | .textMessageStart _ _ => true
  | _ => false

def AGUIEvent.isTextEnd : AGUIEvent → Bool
  | .textMessageEnd _ => true
  | _ => false

def AGUIEvent.isToolEvent : AGUIEvent → Bool
  | .toolCallStart _ _ _ => true
  | .toolCallArgs _ _ => true
  | .toolCallEnd _ => true
  | _ => false

def AGUIEvent.isToolStartId (id : String) : AGUIEvent → Bool
  | .toolCallStart i _ _ => i == id
  | _ => false

def AGUIEvent.isToolEndId (id : String) : AGUIEvent → Bool
  | .toolCallEnd i => i == id
  | _ => false

def AGUIEvent.isUiSpec : AGUIEvent → Bool
  | .uiSpec _ _ _ => true
  | _ => false

/-- The parent message id carried by a tool_call.start event. -/
def AGUIEvent.startParent : AGUIEvent → Option String
  | .toolCallStart _ _ p => some p
  | _ => none

/-- One tool call in the provider completion. -/
structure ProviderToolCall where
  name : String
  arguments : String

/-- The provider completion message: nullable text content and an
optional tool-call array. -/
structure ProviderMessage where
  content : Option String
  tool_calls : Option (List ProviderToolCall)

/-- JS truthiness of the nullable content string. -/
def jsStrTruthy : Option String → Bool
  | some c => c != ""
  | none => false

/-- The synthesized default delta of the fixed-catalog handler. -/
def fallbackText : String := "Here\x27s what I generated for you:"

/-- The start/args/end triple the AGUI handler writes for each tool
call, pairing each with its fresh uuid. -/
def aguiToolEvents (messageId : String) :
    List (String × ProviderToolCall) → List AGUIEvent
  | [] => []
  | (id, tc) :: rest =>
    .toolCallStart id tc.name messageId ::
    .toolCallArgs id tc.arguments ::
    .toolCallEnd id ::
    aguiToolEvents messageId rest

/-- The /api/agui handler: run.started, then on provider failure one
run.error and end; on success one message-start, the tool-call
triples, the content delta (the fallback when content is falsy), the
message-end, run.finished, and end. -/
def aguiHandler (threadId runId : String)
    (provider : Except String ProviderMessage)
    (messageId : String) (toolIds : List String) : List AGUIEvent × Bool :=
  match provider with
  | .error e =>
    ([.runStarted threadId runId, .runError e "INTERNAL_ERROR"], true)
  | .ok m =>
    let tcs := m.tool_calls.getD []
    let toolEvts := aguiToolEvents messageId (toolIds.zip tcs)
    let delta := if jsStrTruthy m.content then m.content.getD "" else fallbackText
    ([.runStarted threadId runId, .textMessageStart messageId "assistant"]
      ++ toolEvts
      ++ [.textMessageContent messageId delta, .textMessageEnd messageId,
          .runFinished threadId runId], true)

/-- Set one key of an object-literal field list, overwriting in place
when present (JS object assignment keeps the original key position). -/
def objSet : List (String × Json) → String → Json → List (String × Json)
  | [], k, v => [(k, v)]
  | (k1, v1) :: rest, k, v =>
    if k1 = k then (k1, v) :: rest else (k1, v1) :: objSet rest k v

/-- Fold a list of assignments onto an object-literal field list. -/
def objExtend (base : List (String × Json)) :
    List (String × Json) → List (String × Json)
  | [] => base
  | (k, v) :: rest => objExtend (objSet base k v) rest

/-- The own enumerable entries the spread operator copies from a
possibly-undefined value: object fields (deduplicated last-wins, as
JSON.parse itself builds them), array elements and string characters
under their index keys, nothing for the primitives. -/
def jsSpread : Option Json → List (String × Json)
  | none => []
  | some .null => []
  | some (.bool _) => []
  | some (.num _) => []
  | some (.str s) =>
    (List.enum s.data).map (fun p => (toString p.1, .str (String.mk [p.2])))
  | some (.arr xs) =>
    (List.enum xs).map (fun p => (toString p.1, p.2))
  | some (.obj fs) => objExtend [] fs

/-- The versioned envelope the A2UI handler builds with
the object literal spreading args.specification over a version tag. -/
def specEnvelope (v : Option Json) : Json :=
  .obj (objExtend [("version", .str "1.0")] (jsSpread v))

/-- Modelled message of the SyntaxError JSON.parse throws (the exact
engine text is irrelevant to the protocol). -/
def jsonParseErrMsg : String := "Unexpected token in JSON"

/-- Modelled message of the TypeError thrown by reading a property of
null. -/
def nullAccessErrMsg : String := "Cannot read properties of null"

/-- The A2UI handler loop over the completion tool calls: each
render_custom_ui call has its argument string parsed once and yields
one ui.spec event carrying the envelope; a throw (unparseable
arguments, or property access on parsed null) aborts the loop,
returning the events already written and the error message. -/
def a2uiSpecEvents (messageId : String) :
    List (String × ProviderToolCall) → List AGUIEvent × Option String
  | [] => ([], none)
  | (sid, tc) :: rest =>
    if tc.name = "render_custom_ui" then
      match parseJsonStr tc.arguments with
      | none => ([], some jsonParseErrMsg)
      | some args =>
        match propRead args "specification" with
        | none => ([], some nullAccessErrMsg)
        | some specField =>
          let r := a2uiSpecEvents messageId rest
          (AGUIEvent.uiSpec sid (specEnvelope specField) messageId :: r.1, r.2)
    else a2uiSpecEvents messageId rest

/-- The /api/a2ui handler: run.started, then on provider failure one
run.error and end; on success the message start/optional content/end,
the ui.spec events, and either run.finished or — when the tool-call
loop throws — the single run.error from the catch block, then end. -/
def a2uiHandler (threadId runId : String)
    (provider : Except String ProviderMessage)
    (messageId : String) (specIds : List String) : List AGUIEvent × Bool :=
  match provider with
  | .error e =>
    ([.runStarted threadId runId, .runError e "INTERNAL_ERROR"], true)
  | .ok m =>
    let pre := [AGUIEvent.runStarted threadId runId,
                AGUIEvent.textMessageStart messageId "assistant"]
      ++ (if jsStrTruthy m.content then
            [AGUIEvent.textMessageContent messageId (m.content.getD "")]
          else [])
      ++ [AGUIEvent.textMessageEnd messageId]
    let r := a2uiSpecEvents messageId (specIds.zip (m.tool_calls.getD []))
    match r.2 with
    | some msg => (pre ++ r.1 ++ [.runError msg "INTERNAL_ERROR"], true)
    | none => (pre ++ r.1 ++ [.runFinished threadId runId], true)

/-! ### Stream Reader + Accumulator, fixed-catalog client
(src/apps/agui/src/components/ChatInterface.tsx, sendMessage)

The read loop decodes each received chunk, splits it on the newline
character, and treats every line starting with the data marker as one
frame: JSON.parse of the rest of the line, dispatched by its type
field; a parse failure is caught, logged and skipped.  There is no
carry between chunks.  Wall-clock timestamps are elided; the uuids
drawn for error entries come from a supply in the state. -/

/-- The open tool-call buffer (closure variable currentToolCall). -/
structure ToolCallState where
  id : Option Json
  name : Option Json
  args : String

/-- One entry of the rendered conversation, flattening the
heterogeneous JS message objects (absent properties are none). -/
structure ClientMessage where
  id : Option Json
  role : String
  content : Option String
  toolName : Option Json
  toolArgs : Option Json
  isError : Bool

/-- The accumulation state closed over by the read loop. -/
structure ClientState where
  messages : List ClientMessage
  currentMessageId : Option Json
  currentMessageContent : String
  currentToolCall : Option ToolCallState
  isLoading : Bool
  freshIds : List String

/-- The per-event switch of the fixed-catalog reader. -/
def dispatch (s : ClientState) (evt : Json) : ClientState :=
  match jsMember evt "type" with
  | some (.str "text_message.start") =>
    { s with currentMessageId := jsMember evt "messageId",
             currentMessageContent := "" }
  | some (.str "text_message.content") =>
    let newContent := s.currentMessageContent ++ jsToStringOpt (jsMember evt "delta")
    let fresh : ClientMessage :=
      { id := s.currentMessageId, role := "assistant",
        content := some newContent, toolName := none,
        toolArgs := none, isError := false }
    let msgs :=
      if s.messages.any (fun m => jsStrictEqOpt m.id s.currentMessageId) then
        s.messages.map (fun m =>
          if jsStrictEqOpt m.id s.currentMessageId then
            { m with content := some newContent }
          else m)
      else
        s.messages ++ [fresh]
    { s with currentMessageContent := newContent, messages := msgs }
  | some (.str "tool_call.start") =>
    let tc : ToolCallState :=
      { id := jsMember evt "toolCallId", name := jsMember evt "toolCallName",
        args := "" }
    { s with currentToolCall := some tc }
  | some (.str "tool_call.args") =>
    match s.currentToolCall with
    | some tc =>
      let tc2 : ToolCallState :=
        { tc with args := tc.args ++ jsToStringOpt (jsMember evt "delta") }
      { s with currentToolCall := some tc2 }
    | none => s
  | some (.str "tool_call.end") =>
    match s.currentToolCall with
    | some tc =>
      match parseJsonStr tc.args with
      | some parsed =>
        let toolMsg : ClientMessage :=
          { id := tc.id, role := "tool", content := none,
            toolName := tc.name, toolArgs := some parsed, isError := false }
        { s with messages := s.messages ++ [toolMsg], currentToolCall := none }
      | none => { s with currentToolCall := none }
    | none => s
  | some (.str "run.finished") => { s with isLoading := false }
  | some (.str "run.error") =>
    let errMsg : ClientMessage :=
      { id := some (.str (s.freshIds.headD "")), role := "assistant",
        content := some ("Error: " ++ jsToStringOpt (jsMember evt "message")),
        toolName := none, toolArgs := none, isError := true }
    { s with messages := s.messages ++ [errMsg], isLoading := false,
             freshIds := s.freshIds.tail }
  | _ => s

/-- The frame marker prefixing every wire record. -/
def dataPrefix : List Char := ['d', 'a', 't', 'a', ':', ' ']

/-- One line of a chunk: frames are recognized by the marker, decoded
with JSON.parse and dispatched; a decode failure or an unmarked line
is skipped. -/
def processLine (s : ClientState) (line : List Char) : ClientState :=
  if dataPrefix.isPrefixOf line then
    match parseJsonList (line.drop 6) with
    | some evt => dispatch s evt
    | none => s
  else s

/-- String.prototype.split on the newline character. -/
def splitNl : List Char → List (List Char)
  | [] => [[]]
  | c :: rest =>
    if c = '\n' then [] :: splitNl rest
    else
      match splitNl rest with
      | l :: ls => (c :: l) :: ls
      | [] => [[c]]

/-- Processing one received chunk: split into lines, handle each. -/
def processChunk (s : ClientState) (chunk : List Char) : ClientState :=
  (splitNl chunk).foldl processLine s

/-- The whole read loop over the sequence of received chunks. -/
def processChunks (s : ClientState) (chunks : List (List Char)) : ClientState :=
  chunks.foldl processChunk s

/-- The loop state right after sendMessage starts reading. -/
def initialClientState (ids : List String) : ClientState :=
  { messages := [], currentMessageId := none, currentMessageContent := "",
    currentToolCall := none, isLoading := true, freshIds := ids }

/-! ### Stream Reader, declarative client
(src/apps/a2ui/src/components/ChatInterface.tsx, sendMessage) -/

/-- One entry of the A2UI conversation. -/
structure A2Message where
  id : Option Json
  role : String
  content : Option String
  uiSpec : Option Json

/-- The accumulation state of the A2UI read loop. -/
structure A2ClientState where
  messages : List A2Message
  currentMessageId : Option Json
  currentMessageContent : String
  isLoading : Bool

/-- The per-event switch of the declarative reader.  Note the
run.error arm: the error is logged to the console and loading is
cleared, but nothing is appended to the conversation. -/
def a2uiDispatch (s : A2ClientState) (evt : Json) : A2ClientState :=
  match jsMember evt "type" with
  | some (.str "text.message.start") =>
    { s with currentMessageId := jsMember evt "messageId",
             currentMessageContent := "" }
  | some (.str "text.message.content") =>
    if jsStrictEqOpt s.currentMessageId (jsMember evt "messageId") then
      let newContent := s.currentMessageContent ++ jsToStringOpt (jsMember evt "content")
      let fresh : A2Message :=
        { id := s.currentMessageId, role := "assistant",
          content := some newContent, uiSpec := none }
      let msgs :=
        if s.messages.any (fun m => jsStrictEqOpt m.id s.currentMessageId) then
          s.messages.map (fun m =>
            if jsStrictEqOpt m.id s.currentMessageId then
              { m with content := some newContent }
            else m)
        else
          s.messages ++ [fresh]
      { s with currentMessageContent := newContent, messages := msgs }
    else s
  | some (.str "text.message.end") => { s with currentMessageId := none }
  | some (.str "ui.spec") =>
    let specMsg : A2Message :=
      { id := jsMember evt "specId", role := "assistant", content := none,
        uiSpec := jsMember evt "specification" }
    { s with messages := s.messages ++ [specMsg] }
  | some (.str "run.finished") => { s with isLoading := false }
  | some (.str "run.error") => { s with isLoading := false }
  | _ => s

/-! ### Concrete inputs used by the counterexamples and witnesses -/

/-- A valid two-frame SSE sequence as one chunk. -/
def sseWholeText : String :=
  "data: \x7b\"type\":\"text_message.start\",\"messageId\":\"m1\"\x7d\n\ndata: \x7b\"type\":\"text_message.content\",\"messageId\":\"m1\",\"delta\":\"hello\"\x7d\n\n"

/-- The same bytes cut mid-JSON inside the second frame: first part. -/
def sseChunkA : String :=
  "data: \x7b\"type\":\"text_message.start\",\"messageId\":\"m1\"\x7d\n\ndata: \x7b\"type\":\"te"

/-- The same bytes cut mid-JSON inside the second frame: second part. -/
def sseChunkB : String :=
  "xt_message.content\",\"messageId\":\"m1\",\"delta\":\"hello\"\x7d\n\n"

/-- A node with an unknown component tag. -/
def frobSpec : Json := .obj [("component", .str "frobnicate")]

/-- A well-formed text sibling. -/
def textSpecA : Json :=
  .obj [("component", .str "text"), ("props", .obj [("content", .str "a")])]

/-- A well-formed badge sibling. -/
def badgeSpecB : Json :=
  .obj [("component", .str "badge"), ("props", .obj [("text", .str "b")])]

/-- render_custom_ui arguments whose specification carries its own
version field. -/
def versionOverrideArgs : String :=
  "\x7b\"specification\":\x7b\"version\":\"2.0\",\"component\":\"text\"\x7d\x7d"

/-- An open tool-call buffer whose accumulated arguments are not valid
JSON. -/
def badArgsToolCall : ToolCallState :=
  { id := some (.str "t1"), name := some (.str "show_chart"),
    args := "\x7bbad" }

/-- A reader state with the malformed buffer open. -/
def badArgsState : ClientState :=
  { messages := [], currentMessageId := none, currentMessageContent := "",
    currentToolCall := some badArgsToolCall, isLoading := true,
    freshIds := [] }

/-- The tool_call.end frame closing t1. -/
def endEvtT1 : Json :=
  .obj [("type", .str "tool_call.end"), ("toolCallId", .str "t1")]

/-- An open tool-call buffer for t1 holding a partial argument string. -/
def partialToolCallT1 : ToolCallState :=
  { id := some (.str "t1"), name := some (.str "show_chart"),
    args := "\x7b\"a\":" }

/-- A reader state with the t1 buffer open. -/
def openT1State : ClientState :=
  { messages := [], currentMessageId := none, currentMessageContent := "",
    currentToolCall := some partialToolCallT1, isLoading := true,
    freshIds := [] }

/-- The t1 buffer after the mismatched delta is appended. -/
def appendedToolCallT1 : ToolCallState :=
  { id := some (.str "t1"), name := some (.str "show_chart"),
    args := "\x7b\"a\":1\x7d" }

/-- A tool_call.args frame whose toolCallId names a different call. -/
def argsEvtOther : Json :=
  .obj [("type", .str "tool_call.args"), ("toolCallId", .str "OTHER"),
        ("delta", .str "1\x7d")]

/-- A run.error frame. -/
def errEvtBoom : Json :=
  .obj [("type", .str "run.error"), ("message", .str "boom"),
        ("code", .str "INTERNAL_ERROR")]

/-- A freshly started A2UI reader state. -/
def a2StartState : A2ClientState :=
  { messages := [], currentMessageId := none, currentMessageContent := "",
    isLoading := true }

/-- The error entry the AGUI reader appends for errEvtBoom when u1 is
the next uuid. -/
def boomEntry : ClientMessage :=
  { id := some (.str "u1"), role := "assistant",
    content := some "Error: boom", toolName := none, toolArgs := none,
    isError := true }

/-- A chart tool call with empty-object arguments. -/
def tcChart : ProviderToolCall :=
  { name := "show_chart", arguments := "\x7b\x7d" }

/-- A weather tool call with empty-object arguments. -/
def tcWeather : ProviderToolCall :=
  { name := "show_weather_card", arguments := "\x7b\x7d" }

/-- A completion with text and two tool calls. -/
def twoToolMsg : ProviderMessage :=
  { content := some "ok", tool_calls := some [tcChart, tcWeather] }

/-- render_custom_ui arguments with a version-free specification. -/
def plainSpecArgs : String :=
  "\x7b\"specification\":\x7b\"component\":\"text\"\x7d\x7d"

/-- The render_custom_ui call carrying plainSpecArgs. -/
def plainSpecCall : ProviderToolCall :=
  { name := "render_custom_ui", arguments := plainSpecArgs }

/-- An A2UI completion with one well-formed render_custom_ui call. -/
def plainSpecMsg : ProviderMessage :=
  { content := none, tool_calls := some [plainSpecCall] }

/-- An A2UI completion whose specification overrides the version tag. -/
def versionOverrideMsg : ProviderMessage :=
  { content := none,
    tool_calls := some [{ name := "render_custom_ui",
                          arguments := versionOverrideArgs }] }

/-! ### Helper lemmas -/

theorem chainSpec_childOk (n : Nat) : childOk (chainSpec n) = true := by
  cases n <;>
    simp [chainSpec, childOk, jsMember, lookupField, jsTruthy, jsTruthyOpt]

theorem render_chainSpec (n : Nat) :
    render (chainSpec n) = some (chainRendered n) := by
  induction n with
  | zero =>
    simp [chainSpec, chainRendered, render, componentTag, jsMember,
      lookupField, propsOf, propRead, jsTruthy, isObjectType]
  | succ n ih =>
    rw [chainSpec, chainRendered]
    rw [render]
    simp only [jsTruthy, isObjectType, Bool.and_self, reduceDIte]
    simp only [componentTag, jsMember, lookupField, childrenOf]
    simp [chainSpec_childOk, renderList, ih]

theorem rdepth_chainRendered (n : Nat) :
    rdepth (chainRendered n) = n + 1 := by
  induction n with
  | zero => simp [chainRendered, rdepth]
  | succ n ih =>
    simp [chainRendered, rdepth, rdepthList, ih]
    omega

theorem renderList_get (l : List Json) (rs : List RenderedNode)
    (h : renderList l = some rs) :
    rs.length = l.length ∧
    ∀ i (h1 : i < l.length) (h2 : i < rs.length),
      render (l.get ⟨i, h1⟩) = some (rs.get ⟨i, h2⟩) := by
  induction l generalizing rs with
  | nil =>
    rw [renderList] at h
    injection h with h2
    subst h2
    exact ⟨rfl, fun i h1 h2 => absurd h1 (Nat.not_lt_zero i)⟩
  | cons c rest ih =>
    rw [renderList] at h
    cases hc : render c with
    | none =>
      simp only [hc] at h
      exact absurd h (by simp)
    | some r =>
      simp only [hc] at h
      cases hr : renderList rest with
      | none =>
        simp only [hr] at h
        exact absurd h (by simp)
      | some rs2 =>
        simp only [hr] at h
        injection h with h2
        subst h2
        obtain ⟨hlen, hget⟩ := ih rs2 hr
        refine ⟨by simp [hlen], ?_⟩
        intro i h1 h2
        cases i with
        | zero => simpa using hc
        | succ j =>
          simp only [List.get_cons_succ]
          exact hget j (by simpa using h1) (by simpa using h2)

/-! ### Claim theorems -/

/-- C1: the claim states that recursion over children in UIComponent is
capped at an explicit maximum depth, with a tree nested past the cap
rendering a truncation placeholder.  The code has no cap: the
1000-deep container chain renders in full — every one of its 1001
nodes appears in the output tree (chainRendered 1000, of depth 1001,
ending in the rendered text leaf) and nothing is truncated. -/
theorem c1_no_depth_cap_at_1000 :
    render (chainSpec 1000) = some (chainRendered 1000) ∧
    rdepth (chainRendered 1000) = 1001 := by
  refine ⟨render_chainSpec 1000, ?_⟩
  have h := rdepth_chainRendered 1000
  omega

/-- C2: the claim states the reader accumulates the same messages for
every chunking of a valid frame sequence, carrying partial trailing
frames over.  The code splits each chunk on newlines independently
with no carry buffer: the same two valid frames yield the assistant
message when delivered as one chunk, but yield nothing when the bytes
are cut mid-JSON into two chunks — the split frame is dropped. -/
theorem c2_chunk_split_changes_result :
    sseChunkA ++ sseChunkB = sseWholeText ∧
    (processChunks (initialClientState []) [sseWholeText.data]).messages =
      [{ id := some (.str "m1"), role := "assistant", content := some "hello",
         toolName := none, toolArgs := none, isError := false }] ∧
    (processChunks (initialClientState [])
        [sseChunkA.data, sseChunkB.data]).messages = [] :=
  ⟨rfl, rfl, rfl⟩

/-- C4: a node whose component tag is a string outside the known set
renders as the visible unknown-component placeholder carrying the tag
and the raw offending node, with no exception; a container renders
exactly its filtered children through renderList, and a successful
renderList renders each sibling independently by the render function
itself, so siblings of the unknown node render as they would alone. -/
theorem c4_unknown_component_resilience :
    (∀ (spec : Json) (c : String),
        (jsTruthy spec && isObjectType spec) = true →
        componentTag spec = some c →
        c ∉ knownComponents →
        render spec = some (.unknownPlaceholder c spec)) ∧
    (∀ cs : List Json,
        render (Json.obj [("component", .str "container"), ("children", .arr cs)]) =
          (renderList (cs.filter childOk)).map (RenderedNode.container none)) ∧
    (∀ (l : List Json) (rs : List RenderedNode), renderList l = some rs →
        rs.length = l.length ∧
        ∀ i (h1 : i < l.length) (h2 : i < rs.length),
          render (l.get ⟨i, h1⟩) = some (rs.get ⟨i, h2⟩)) := by
  refine ⟨?_, ?_, renderList_get⟩
  · intro spec c hg hc hmem
    rw [render, dif_pos hg, hc]
    simp only [knownComponents, List.mem_cons, List.not_mem_nil, or_false] at hmem
    push_neg at hmem
    obtain ⟨h1, h2, h3, h4, h5, h6, h7, h8, h9, h10, h11, h12, h13, h14, h15,
      h16, h17⟩ := hmem
    split <;> simp_all
  · intro cs
    rw [render]
    have hg : (jsTruthy (Json.obj [("component", Json.str "container"),
          ("children", Json.arr cs)]) &&
        isObjectType (Json.obj [("component", Json.str "container"),
          ("children", Json.arr cs)])) = true := rfl
    rw [dif_pos hg]
    have hcomp : componentTag
        (Json.obj [("component", .str "container"), ("children", .arr cs)]) =
        some "container" := rfl
    rw [hcomp]
    change (match renderList (List.filter childOk cs) with
        | none => none
        | some rs => some (RenderedNode.container none rs)) =
      (renderList (List.filter childOk cs)).map (RenderedNode.container none)
    cases hr : renderList (List.filter childOk cs) <;> simp [hr]

/-- Witness for C4 at concrete input: the frobnicate node renders the
placeholder showing the raw node, and a container holding a text node,
the frobnicate node and a badge renders the placeholder between the
two normally rendered siblings. -/
theorem c4_unknown_component_resilience_witness :
    render frobSpec = some (.unknownPlaceholder "frobnicate" frobSpec) ∧
    render (Json.obj [("component", .str "container"),
        ("children", .arr [textSpecA, frobSpec, badgeSpecB])]) =
      some (.container none
        [.textNode (some (.str "a")),
         .unknownPlaceholder "frobnicate" frobSpec,
         .badge none (some (.str "b"))]) := by
  constructor
  · exact c4_unknown_component_resilience.1 frobSpec "frobnicate" rfl rfl
      (by decide)
  · rw [c4_unknown_component_resilience.2.1 [textSpecA, frobSpec, badgeSpecB]]
    have hfrob : render frobSpec =
        some (.unknownPlaceholder "frobnicate" frobSpec) :=
      c4_unknown_component_resilience.1 frobSpec "frobnicate" rfl rfl (by decide)
    have hfilter : [textSpecA, frobSpec, badgeSpecB].filter childOk =
        [textSpecA, frobSpec, badgeSpecB] := rfl
    rw [hfilter, renderList, renderList, renderList, renderList, hfrob]
    have ha : render textSpecA = some (.textNode (some (.str "a"))) := by
      rw [render]
      rfl
    have hb : render badgeSpecB = some (.badge none (some (.str "b"))) := by
      rw [render]
      rfl
    rw [ha, hb]
    rfl

theorem a2uiSpecEvents_uiSpec (mid : String)
    (l : List (String × ProviderToolCall)) :
    ∀ ev ∈ (a2uiSpecEvents mid l).1, ev.isUiSpec = true := by
  induction l with
  | nil =>
    intro ev h
    simp [a2uiSpecEvents] at h
  | cons p rest ih =>
    obtain ⟨sid, tc⟩ := p
    intro ev h
    simp only [a2uiSpecEvents] at h
    by_cases hn : tc.name = "render_custom_ui"
    · rw [if_pos hn] at h
      cases hp : parseJsonStr tc.arguments with
      | none =>
        simp only [hp] at h
        simp at h
      | some args =>
        simp only [hp] at h
        cases hs : propRead args "specification" with
        | none =>
          simp only [hs] at h
          simp at h
        | some sf =>
          simp only [hs] at h
          simp only [List.mem_cons] at h
          rcases h with h | h
          · subst h
            rfl
          · exact ih ev h
    · rw [if_neg hn] at h
      exact ih ev h

/-- C3: on a provider failure both handlers emit run.started followed
by exactly one run.error with a message and the coarse INTERNAL_ERROR
code, and close the response; when a later step of the A2UI session
throws instead (the tool-call argument parse), the events emitted so
far are followed by exactly one run.error, no run.finished is
emitted, the stream ends on the run.error, and the response is
closed. -/
theorem c3_terminal_guarantee
    (t r e mid msg : String) (ids sids : List String) (m : ProviderMessage)
    (hthrow : (a2uiSpecEvents mid (sids.zip (m.tool_calls.getD []))).2 =
      some msg) :
    (aguiHandler t r (.error e) mid ids =
      ([.runStarted t r, .runError e "INTERNAL_ERROR"], true)) ∧
    (a2uiHandler t r (.error e) mid sids =
      ([.runStarted t r, .runError e "INTERNAL_ERROR"], true)) ∧
    ((aguiHandler t r (.error e) mid ids).1.countP AGUIEvent.isRunError = 1) ∧
    ((a2uiHandler t r (.ok m) mid sids).1.countP AGUIEvent.isRunError = 1 ∧
     (a2uiHandler t r (.ok m) mid sids).1.countP AGUIEvent.isRunFinished = 0 ∧
     (a2uiHandler t r (.ok m) mid sids).1.getLast? =
       some (.runError msg "INTERNAL_ERROR") ∧
     (a2uiHandler t r (.ok m) mid sids).2 = true) := by
  refine ⟨rfl, rfl, by
    simp [aguiHandler, List.countP_cons, List.countP_nil,
      AGUIEvent.isRunError], ?_⟩
  have hspec : ∀ ev ∈ (a2uiSpecEvents mid
      (sids.zip (m.tool_calls.getD []))).1, ev.isUiSpec = true :=
    a2uiSpecEvents_uiSpec mid _
  have herr0 : (a2uiSpecEvents mid
      (sids.zip (m.tool_calls.getD []))).1.countP AGUIEvent.isRunError = 0 := by
    rw [List.countP_eq_zero]
    intro ev hev
    have := hspec ev hev
    cases ev <;> simp_all [AGUIEvent.isUiSpec, AGUIEvent.isRunError]
  have hfin0 : (a2uiSpecEvents mid
      (sids.zip (m.tool_calls.getD []))).1.countP AGUIEvent.isRunFinished = 0 := by
    rw [List.countP_eq_zero]
    intro ev hev
    have := hspec ev hev
    cases ev <;> simp_all [AGUIEvent.isUiSpec, AGUIEvent.isRunFinished]
  simp only [a2uiHandler, hthrow]
  cases hcont : jsStrTruthy m.content <;>
    simp [hcont, List.countP_append, herr0, hfin0, AGUIEvent.isRunError,
      AGUIEvent.isRunFinished] <;>
    rw [← List.cons_append, List.getLast?_concat]

/-- Witness for C3 at concrete input: an injected provider failure and
an A2UI run whose single render_custom_ui call carries unparseable
arguments. -/
theorem c3_terminal_guarantee_witness :
    (aguiHandler "t1" "r1" (.error "boom") "m1" [] =
      ([.runStarted "t1" "r1", .runError "boom" "INTERNAL_ERROR"], true)) ∧
    (a2uiHandler "t1" "r1" (.error "boom") "m1" ["s1"] =
      ([.runStarted "t1" "r1", .runError "boom" "INTERNAL_ERROR"], true)) ∧
    ((aguiHandler "t1" "r1" (.error "boom") "m1" []).1.countP
      AGUIEvent.isRunError = 1) ∧
    (let badRun := a2uiHandler "t1" "r1"
        (.ok { content := none,
               tool_calls := some [{ name := "render_custom_ui",
                                     arguments := "not json" }] }) "m1" ["s1"]
     badRun.1.countP AGUIEvent.isRunError = 1 ∧
     badRun.1.countP AGUIEvent.isRunFinished = 0 ∧
     badRun.1.getLast? = some (.runError jsonParseErrMsg "INTERNAL_ERROR") ∧
     badRun.2 = true) :=
  c3_terminal_guarantee "t1" "r1" "boom" "m1" jsonParseErrMsg [] ["s1"]
    { content := none,
      tool_calls := some [{ name := "render_custom_ui",
                            arguments := "not json" }] } rfl

/-- C6: a fixed-catalog completion with no tool calls and falsy text
content still produces the synthesized non-empty fallback delta, so
the assistant turn is never empty. -/
theorem c6_empty_completion_fallback
    (t r mid : String) (ids : List String) (m : ProviderMessage)
    (hno : m.tool_calls = none ∨ m.tool_calls = some [])
    (hempty : jsStrTruthy m.content = false) :
    (aguiHandler t r (.ok m) mid ids).1 =
      [.runStarted t r, .textMessageStart mid "assistant",
       .textMessageContent mid fallbackText, .textMessageEnd mid,
       .runFinished t r] ∧ fallbackText ≠ "" := by
  refine ⟨?_, by decide⟩
  have htc : m.tool_calls.getD [] = [] := by
    rcases hno with h | h <;> simp [h]
  simp [aguiHandler, htc, hempty, aguiToolEvents]

/-- Witness for C6 at concrete input: the empty completion. -/
theorem c6_empty_completion_fallback_witness :
    (aguiHandler "t1" "r1"
        (.ok { content := some "", tool_calls := some [] }) "m1" []).1 =
      [.runStarted "t1" "r1", .textMessageStart "m1" "assistant",
       .textMessageContent "m1" fallbackText, .textMessageEnd "m1",
       .runFinished "t1" "r1"] ∧ fallbackText ≠ "" :=
  c6_empty_completion_fallback "t1" "r1" "m1" []
    { content := some "", tool_calls := some [] } (Or.inr rfl) rfl

/-- C5: dispatching tool_call.end while a tool call is open parses the
accumulated argument string; when the parse fails the failure is
contained — no tool message is appended, the open buffer is just
cleared — and the fold over the remaining frames continues from that
state. -/
theorem c5_tool_args_parse_failure
    (s : ClientState) (tc : ToolCallState) (evt : Json) (es : List Json)
    (hopen : s.currentToolCall = some tc)
    (hbad : parseJsonStr tc.args = none)
    (hty : jsMember evt "type" = some (.str "tool_call.end")) :
    dispatch s evt = { s with currentToolCall := none } ∧
    (dispatch s evt).messages = s.messages ∧
    (evt :: es).foldl dispatch s =
      es.foldl dispatch { s with currentToolCall := none } := by
  have h1 : dispatch s evt = { s with currentToolCall := none } := by
    simp only [dispatch, hty, hopen, hbad]
  exact ⟨h1, by rw [h1], by rw [List.foldl_cons, h1]⟩

/-- Witness for C5 at concrete input: the open tool call holds the
unparseable argument string when tool_call.end arrives, and no tool
message is appended. -/
theorem c5_tool_args_parse_failure_witness :
    (dispatch badArgsState endEvtT1).messages = [] :=
  (c5_tool_args_parse_failure badArgsState badArgsToolCall endEvtT1 []
    rfl rfl rfl).2.1

/-- C10: a tool_call.args delta is appended onto the single open
tool-call buffer whatever toolCallId the event carries — the id field
never enters the computation — and with no open buffer the delta is
discarded. -/
theorem c10_args_delta_ignores_id
    (s : ClientState) (tc : ToolCallState) (evt : Json) (d : Json)
    (hty : jsMember evt "type" = some (.str "tool_call.args"))
    (hd : jsMember evt "delta" = some d) :
    (s.currentToolCall = some tc →
      dispatch s evt = { s with
        currentToolCall :=
          some (ToolCallState.mk tc.id tc.name (tc.args ++ jsToString d)) }) ∧
    (s.currentToolCall = none → dispatch s evt = s) := by
  constructor
  · intro hopen
    simp only [dispatch, hty, hopen, jsToStringOpt, hd]
  · intro hnone
    simp only [dispatch, hty, hnone]

/-- Witness for C10 at concrete input: the args event carries
toolCallId OTHER while the open buffer's id is t1, and the delta is
appended to the t1 buffer anyway; with no open buffer the same event
changes nothing. -/
theorem c10_args_delta_ignores_id_witness :
    (dispatch openT1State argsEvtOther =
      { openT1State with currentToolCall := some appendedToolCallT1 }) ∧
    (dispatch (initialClientState []) argsEvtOther =
      initialClientState []) := by
  constructor
  · have h := (c10_args_delta_ignores_id openT1State partialToolCallT1
      argsEvtOther (.str "1\x7d") rfl rfl).1 rfl
    rw [h]
    rfl
  · exact (c10_args_delta_ignores_id (initialClientState [])
      partialToolCallT1 argsEvtOther (.str "1\x7d") rfl rfl).2 rfl

/-- C8 counterexample: in the A2UI client a run.error event only
clears the loading flag; the error message is not surfaced to the
conversation — the message list stays empty, refuting the claim for
that reader. -/
theorem c8_a2ui_error_not_surfaced :
    a2uiDispatch a2StartState errEvtBoom =
      { a2StartState with isLoading := false } ∧
    (a2uiDispatch a2StartState errEvtBoom).messages = [] :=
  ⟨rfl, rfl⟩

/-- C8 (amended): in the fixed-catalog client a run.error event
appends an error-flagged assistant entry carrying the message and
clears loading; in the declarative client it only clears loading
(the message is logged, not added to the conversation). -/
theorem c8_error_surfacing
    (s : ClientState) (s2 : A2ClientState) (evt : Json) (d : Json)
    (hty : jsMember evt "type" = some (.str "run.error"))
    (hd : jsMember evt "message" = some d) :
    dispatch s evt = { s with
      messages := s.messages ++
        [{ id := some (.str (s.freshIds.headD "")), role := "assistant",
           content := some ("Error: " ++ jsToString d), toolName := none,
           toolArgs := none, isError := true }],
      isLoading := false, freshIds := s.freshIds.tail } ∧
    a2uiDispatch s2 evt = { s2 with isLoading := false } := by
  constructor
  · simp only [dispatch, hty, hd, jsToStringOpt]
  · simp only [a2uiDispatch, hty]

/-- Witness for C8 at concrete input: the same run.error event fed to
both freshly started readers. -/
theorem c8_error_surfacing_witness :
    (dispatch (initialClientState ["u1"]) errEvtBoom).messages =
      [boomEntry] ∧
    (dispatch (initialClientState ["u1"]) errEvtBoom).isLoading = false ∧
    a2uiDispatch a2StartState errEvtBoom =
      { a2StartState with isLoading := false } := by
  have h := c8_error_surfacing (initialClientState ["u1"]) a2StartState
    errEvtBoom (.str "boom") rfl rfl
  refine ⟨?_, ?_, h.2⟩
  · rw [h.1]
    rfl
  · rw [h.1]

theorem aguiToolEvents_mem (mid : String)
    (l : List (String × ProviderToolCall)) :
    ∀ e ∈ aguiToolEvents mid l, e.isToolEvent = true ∧
      ∀ p, e.startParent = some p → p = mid := by
  induction l with
  | nil =>
    intro e h
    simp [aguiToolEvents] at h
  | cons pr rest ih =>
    obtain ⟨id, tc⟩ := pr
    intro e h
    simp only [aguiToolEvents, List.mem_cons] at h
    rcases h with h | h | h | h
    · subst h
      refine ⟨rfl, fun p hp => ?_⟩
      simp only [AGUIEvent.startParent, Option.some.injEq] at hp
      exact hp.symm
    · subst h
      exact ⟨rfl, fun p hp => by simp [AGUIEvent.startParent] at hp⟩
    · subst h
      exact ⟨rfl, fun p hp => by simp [AGUIEvent.startParent] at hp⟩
    · exact ih e h

theorem aguiToolEvents_countP_start (mid id : String)
    (l : List (String × ProviderToolCall)) :
    (aguiToolEvents mid l).countP (AGUIEvent.isToolStartId id) =
      l.countP (fun p => p.1 == id) := by
  induction l with
  | nil => simp [aguiToolEvents]
  | cons pr rest ih =>
    obtain ⟨i, tc⟩ := pr
    by_cases hi : i = id <;>
      simp [aguiToolEvents, List.countP_cons, ih, hi,
        AGUIEvent.isToolStartId]

theorem aguiToolEvents_countP_end (mid id : String)
    (l : List (String × ProviderToolCall)) :
    (aguiToolEvents mid l).countP (AGUIEvent.isToolEndId id) =
      l.countP (fun p => p.1 == id) := by
  induction l with
  | nil => simp [aguiToolEvents]
  | cons pr rest ih =>
    obtain ⟨i, tc⟩ := pr
    by_cases hi : i = id <;>
      simp [aguiToolEvents, List.countP_cons, ih, hi,
        AGUIEvent.isToolEndId]

theorem zip_countP_fst (ids : List String) (tcs : List ProviderToolCall)
    (hlen : ids.length = tcs.length) (id : String) :
    (ids.zip tcs).countP (fun p => p.1 == id) = ids.countP (· == id) := by
  induction ids generalizing tcs with
  | nil => simp
  | cons i irest ih =>
    cases tcs with
    | nil => simp at hlen
    | cons tc trest =>
      simp only [List.zip_cons_cons, List.countP_cons]
      rw [ih trest (by simpa using hlen)]

theorem aguiToolEvents_countP_zero (mid : String)
    (l : List (String × ProviderToolCall)) (p : AGUIEvent → Bool)
    (hp : ∀ e, e.isToolEvent = true → p e = false) :
    (aguiToolEvents mid l).countP p = 0 := by
  rw [List.countP_eq_zero]
  intro e he
  have h := (aguiToolEvents_mem mid l e he).1
  simp [hp e h]

/-- C7: on a completed fixed-catalog run the handler emits exactly one
text message start/end pair, one start/end pair per tool call (the
fresh tool-call ids are pairwise distinct), every tool-call event lies
strictly between the message start and end events, and every
tool_call.start carries the message id as parentMessageId. -/
theorem c7_event_pairing_and_nesting
    (t r mid : String) (m : ProviderMessage) (ids : List String)
    (hlen : ids.length = (m.tool_calls.getD []).length)
    (hnd : ids.Nodup) :
    (∃ d, (aguiHandler t r (.ok m) mid ids).1 =
        [AGUIEvent.runStarted t r, AGUIEvent.textMessageStart mid "assistant"]
        ++ aguiToolEvents mid (ids.zip (m.tool_calls.getD []))
        ++ [AGUIEvent.textMessageContent mid d, AGUIEvent.textMessageEnd mid,
            AGUIEvent.runFinished t r]) ∧
    (aguiHandler t r (.ok m) mid ids).1.countP AGUIEvent.isTextStart = 1 ∧
    (aguiHandler t r (.ok m) mid ids).1.countP AGUIEvent.isTextEnd = 1 ∧
    (∀ id ∈ ids,
      (aguiHandler t r (.ok m) mid ids).1.countP
        (AGUIEvent.isToolStartId id) = 1 ∧
      (aguiHandler t r (.ok m) mid ids).1.countP
        (AGUIEvent.isToolEndId id) = 1) ∧
    (∀ e ∈ (aguiHandler t r (.ok m) mid ids).1, ∀ p,
      e.startParent = some p → p = mid) := by
  have hout : (aguiHandler t r (.ok m) mid ids).1 =
      [AGUIEvent.runStarted t r, AGUIEvent.textMessageStart mid "assistant"]
      ++ aguiToolEvents mid (ids.zip (m.tool_calls.getD []))
      ++ [AGUIEvent.textMessageContent mid
            (if jsStrTruthy m.content then m.content.getD "" else fallbackText),
          AGUIEvent.textMessageEnd mid, AGUIEvent.runFinished t r] := rfl
  refine ⟨⟨_, hout⟩, ?_, ?_, ?_, ?_⟩
  · rw [hout]
    simp [List.countP_append, List.countP_cons, AGUIEvent.isTextStart,
      aguiToolEvents_countP_zero mid _ AGUIEvent.isTextStart
        (by intro e he; cases e <;> simp_all [AGUIEvent.isToolEvent,
          AGUIEvent.isTextStart])]
  · rw [hout]
    simp [List.countP_append, List.countP_cons, AGUIEvent.isTextEnd,
      aguiToolEvents_countP_zero mid _ AGUIEvent.isTextEnd
        (by intro e he; cases e <;> simp_all [AGUIEvent.isToolEvent,
          AGUIEvent.isTextEnd])]
  · intro id hid
    have hcount : (ids.zip (m.tool_calls.getD [])).countP
        (fun p => p.1 == id) = 1 := by
      rw [zip_countP_fst ids _ hlen id]
      have := List.count_eq_one_of_mem hnd hid
      simpa [List.count] using this
    constructor
    · rw [hout]
      simp [List.countP_append, List.countP_cons, AGUIEvent.isToolStartId,
        aguiToolEvents_countP_start, hcount]
    · rw [hout]
      simp [List.countP_append, List.countP_cons, AGUIEvent.isToolEndId,
        aguiToolEvents_countP_end, hcount]
  · intro e he p hp
    rw [hout] at he
    simp only [List.mem_append, List.mem_cons, List.not_mem_nil,
      or_false] at he
    rcases he with ((he | he) | he) | he | he | he
    · subst he
      simp [AGUIEvent.startParent] at hp
    · subst he
      simp [AGUIEvent.startParent] at hp
    · exact (aguiToolEvents_mem mid _ e he).2 p hp
    · subst he
      simp [AGUIEvent.startParent] at hp
    · subst he
      simp [AGUIEvent.startParent] at hp
    · subst he
      simp [AGUIEvent.startParent] at hp

/-- Witness for C7 at concrete input: a completion with two tool calls
and two distinct fresh ids. -/
theorem c7_event_pairing_and_nesting_witness :
    (aguiHandler "t1" "r1" (.ok twoToolMsg) "m1" ["a", "b"]).1.countP
      AGUIEvent.isTextStart = 1 ∧
    (aguiHandler "t1" "r1" (.ok twoToolMsg) "m1" ["a", "b"]).1.countP
      (AGUIEvent.isToolStartId "a") = 1 ∧
    (aguiHandler "t1" "r1" (.ok twoToolMsg) "m1" ["a", "b"]).1.countP
      (AGUIEvent.isToolEndId "b") = 1 := by
  have h := c7_event_pairing_and_nesting "t1" "r1" "m1" twoToolMsg
    ["a", "b"] rfl (by decide)
  exact ⟨h.2.1, (h.2.2.2.1 "a" (by simp)).1, (h.2.2.2.1 "b" (by simp)).2⟩

theorem lookupField_objSet_ne (base : List (String × Json))
    (k0 : String) (v0 : Json) (k : String) (hk : k0 ≠ k) :
    lookupField (objSet base k0 v0) k = lookupField base k := by
  induction base with
  | nil => simp [objSet, lookupField, hk]
  | cons pr rest ih =>
    obtain ⟨k1, v1⟩ := pr
    by_cases h1 : k1 = k0
    · subst h1
      simp only [objSet, if_pos rfl, lookupField]
      cases lookupField rest k <;> simp [hk]
    · simp only [objSet, if_neg h1, lookupField, ih]

theorem lookupField_objExtend_notmem (fs : List (String × Json))
    (base : List (String × Json)) (k : String)
    (h : ∀ kv ∈ fs, kv.1 ≠ k) :
    lookupField (objExtend base fs) k = lookupField base k := by
  induction fs generalizing base with
  | nil => rfl
  | cons pr rest ih =>
    obtain ⟨k0, v0⟩ := pr
    rw [objExtend, ih (objSet base k0 v0) (fun kv hkv => h kv (by simp [hkv]))]
    exact lookupField_objSet_ne base k0 v0 k (h (k0, v0) (by simp))

theorem a2uiSpecEvents_count (mid : String)
    (l : List (String × ProviderToolCall))
    (h : (a2uiSpecEvents mid l).2 = none) :
    (a2uiSpecEvents mid l).1.countP AGUIEvent.isUiSpec =
      l.countP (fun p => p.2.name == "render_custom_ui") := by
  induction l with
  | nil => simp [a2uiSpecEvents]
  | cons pr rest ih =>
    obtain ⟨sid, tc⟩ := pr
    by_cases hn : tc.name = "render_custom_ui"
    · simp only [a2uiSpecEvents, if_pos hn] at h ⊢
      cases hp : parseJsonStr tc.arguments with
      | none =>
        simp only [hp] at h
        exact Option.noConfusion h
      | some args =>
        simp only [hp] at h ⊢
        cases hs : propRead args "specification" with
        | none =>
          simp only [hs] at h
          exact Option.noConfusion h
        | some v =>
          simp only [hs] at h ⊢
          simp [List.countP_cons, ih h, hn, AGUIEvent.isUiSpec]
    · simp only [a2uiSpecEvents, if_neg hn] at h ⊢
      simp [List.countP_cons, ih h, hn]

/-- C9 counterexample: when the parsed specification itself carries a
version field, the object-literal spread overrides the envelope's
version tag, so the single emitted ui.spec carries version 2.0, not
the claimed fixed tag 1.0. -/
theorem c9_version_overridden_by_spec :
    (a2uiHandler "t1" "r1" (.ok versionOverrideMsg) "m1" ["s1"]).1 =
      [.runStarted "t1" "r1", .textMessageStart "m1" "assistant",
       .textMessageEnd "m1",
       .uiSpec "s1" (Json.obj [("version", .str "2.0"),
                               ("component", .str "text")]) "m1",
       .runFinished "t1" "r1"] ∧
    jsMember (Json.obj [("version", .str "2.0"), ("component", .str "text")])
        "version" ≠ some (.str "1.0") := by
  refine ⟨rfl, fun h => ?_⟩
  simp only [jsMember, lookupField] at h
  injection h with h2
  injection h2 with h3
  exact absurd h3 (by decide)

/-- C9 (amended): each render_custom_ui tool call of the completion
has its argument string parsed once and contributes exactly one
ui.spec event carrying the parsed specification fields spread over a
version tag that defaults to 1.0 — a version field present in the raw
specification overrides the tag; when the run completes, the number of
ui.spec events equals the number of render_custom_ui calls, and the
tree is never decomposed into delta events (the stream carries no
tool-call delta events at all). -/
theorem c9_ui_spec_envelope
    (t r mid sid : String) (m : ProviderMessage) (sids : List String)
    (tc : ProviderToolCall) (rest : List (String × ProviderToolCall))
    (args : Json) (v : Option Json)
    (hok : (a2uiSpecEvents mid (sids.zip (m.tool_calls.getD []))).2 = none)
    (hname : tc.name = "render_custom_ui")
    (hparse : parseJsonStr tc.arguments = some args)
    (hspec : propRead args "specification" = some v) :
    (a2uiHandler t r (.ok m) mid sids).1.countP AGUIEvent.isUiSpec =
      (sids.zip (m.tool_calls.getD [])).countP
        (fun p => p.2.name == "render_custom_ui") ∧
    a2uiSpecEvents mid ((sid, tc) :: rest) =
      (AGUIEvent.uiSpec sid (specEnvelope v) mid ::
        (a2uiSpecEvents mid rest).1, (a2uiSpecEvents mid rest).2) ∧
    (∀ w : Option Json, (∀ kv ∈ jsSpread w, kv.1 ≠ "version") →
      jsMember (specEnvelope w) "version" = some (.str "1.0")) ∧
    (a2uiHandler t r (.ok m) mid sids).1.countP AGUIEvent.isToolEvent = 0 := by
  have hcnt := a2uiSpecEvents_count mid (sids.zip (m.tool_calls.getD [])) hok
  have htool0 : (a2uiSpecEvents mid
      (sids.zip (m.tool_calls.getD []))).1.countP AGUIEvent.isToolEvent = 0 := by
    rw [List.countP_eq_zero]
    intro ev hev
    have := a2uiSpecEvents_uiSpec mid _ ev hev
    cases ev <;> simp_all [AGUIEvent.isUiSpec, AGUIEvent.isToolEvent]
  refine ⟨?_, ?_, ?_, ?_⟩
  · simp only [a2uiHandler, hok]
    cases hcont : jsStrTruthy m.content <;>
      simp [hcont, List.countP_append, List.countP_cons, hcnt,
        AGUIEvent.isUiSpec]
  · simp only [a2uiSpecEvents, if_pos hname, hparse, hspec]
  · intro w hw
    show lookupField (objExtend [("version", .str "1.0")] (jsSpread w))
        "version" = some (.str "1.0")
    rw [lookupField_objExtend_notmem (jsSpread w) _ "version" hw]
    rfl
  · simp only [a2uiHandler, hok]
    cases hcont : jsStrTruthy m.content <;>
      simp [hcont, List.countP_append, List.countP_cons, htool0,
        AGUIEvent.isToolEvent]

/-- Witness for C9 at concrete input: a run whose single
render_custom_ui call carries a version-free text specification; the
run emits exactly one ui.spec, its envelope version is 1.0, and no
delta events appear. -/
theorem c9_ui_spec_envelope_witness :
    (a2uiHandler "t1" "r1" (.ok plainSpecMsg) "m1" ["s1"]).1.countP
      AGUIEvent.isUiSpec = 1 ∧
    a2uiSpecEvents "m1" [("s1", plainSpecCall)] =
      ([AGUIEvent.uiSpec "s1"
          (specEnvelope (some (.obj [("component", .str "text")]))) "m1"],
       none) ∧
    jsMember (specEnvelope (some (.obj [("component", .str "text")])))
      "version" = some (.str "1.0") := by
  have h := c9_ui_spec_envelope "t1" "r1" "m1" "s1" plainSpecMsg ["s1"]
    plainSpecCall []
    (.obj [("specification", .obj [("component", .str "text")])])
    (some (.obj [("component", .str "text")])) rfl rfl rfl rfl
  refine ⟨?_, ?_, ?_⟩
  · rw [h.1]
    rfl
  · rw [h.2.1]
    rfl
  · exact h.2.2.1 (some (.obj [("component", .str "text")])) (by decide)

end DynamicUI
